import Mathlib

/-!
# PlugsConc — verification of the core subsystems

Shallow embedding of the PlugsConc host runtime (plugin registry, checksum
integrity loader, manifest launch details, concurrent job executor) together
with proofs about the embedded operations.

Sources embedded:
* `internal/worker/worker.go` — the worker retry loop (`Worker.Start`).
* `internal/worker/pool.go` — `NewPool`, `Pool.Submit`, channel lifecycle.
* `internal/registry/loader.go` / `manifest.go` — `PluginLoader.Load`,
  `LoadManifest`, `getMD5Hash`, `Handshake.ToConfig`,
  `Manifest.ToLaunchDetails`, plugin format tables.
* `internal/checksum/sha256.go` — `LoadSHA256`.
* the `capability` package — the declarative permission schema.
-/

namespace PlugsConc

/-! ## Worker retry loop

Embedding of the retry loop inside `Worker.Start` (`internal/worker/worker.go`):

```
for attempt := 0; ; attempt++ {
    job.RetryCount = attempt
    select { case <-job.Ctx.Done(): return nil, job.Ctx.Err() default: }
    v, e := job.Execute(job.Ctx)
    if e == nil || attempt >= job.MaxRetries { return v, e }
    // log retry
    if delay > 0 {
        select { case <-job.Ctx.Done(): return nil, job.Ctx.Err() case <-t.C: }
    }
}
```

The work function and the observable state of the job context at each
suspension point are data of the model: `work i` is the value/error returned
by the `i`-th invocation of `job.Execute`, `canceledBefore i` is whether the
`select` on `job.Ctx.Done()` before attempt `i` observes cancellation, and
`canceledInSleep i` is whether the retry sleep after attempt `i` is preempted
by cancellation.
-/

/-- Outcome of a finished job: the work value, the work error, or the
context's cancellation error (`job.Ctx.Err()`). -/
inductive JobOutcome where
  | ok (v : String)
  | workErr (e : String)
  | ctxErr
deriving DecidableEq, Repr

/-- Result of running the retry loop: the outcome returned to the caller, the
final value of `job.RetryCount`, and the number of times `job.Execute` was
invoked. -/
structure LoopResult where
  outcome : JobOutcome
  retryCount : Nat
  calls : Nat
deriving DecidableEq, Repr

/-- The data of one job as seen by the worker retry loop. -/
structure JobSpec where
  maxRetries : Nat
  retryDelay : Nat
  work : Nat → Except String String
  canceledBefore : Nat → Bool
  canceledInSleep : Nat → Bool

/-- The retry loop of `Worker.Start`, starting at attempt index `attempt`.
`calls` counts `job.Execute` invocations from this attempt on. -/
def retryLoop (j : JobSpec) (attempt : Nat) : LoopResult :=
  if j.canceledBefore attempt then
    ⟨.ctxErr, attempt, 0⟩
  else
    match j.work attempt with
    | .ok v => ⟨.ok v, attempt, 1⟩
    | .error e =>
      if hm : j.maxRetries ≤ attempt then ⟨.workErr e, attempt, 1⟩
      else if j.retryDelay > 0 ∧ j.canceledInSleep attempt then ⟨.ctxErr, attempt, 1⟩
      else
        let r := retryLoop j (attempt + 1)
        ⟨r.outcome, r.retryCount, r.calls + 1⟩
termination_by j.maxRetries + 1 - attempt
decreasing_by omega

/-- Running a job through the worker: the retry loop started at attempt 0. -/
def runJob (j : JobSpec) : LoopResult := retryLoop j 0

section RetryLemmas

variable {j : JobSpec}

/-- With cancellation never observed, the loop from attempt `a ≤ maxRetries`
makes at most `maxRetries + 1 - a` work calls. -/
theorem retryLoop_calls_le (hb : ∀ i, j.canceledBefore i = false) (a : Nat)
    (ha : a ≤ j.maxRetries) :
    (retryLoop j a).calls ≤ j.maxRetries + 1 - a := by
  rw [retryLoop, hb a]
  simp only [Bool.false_eq_true, if_false]
  cases hw : j.work a with
  | ok v => dsimp only; omega
  | error e =>
    dsimp only
    by_cases hm : j.maxRetries ≤ a
    · rw [dif_pos hm]; dsimp only; omega
    · rw [dif_neg hm]
      by_cases hsl : j.retryDelay > 0 ∧ j.canceledInSleep a = true
      · rw [if_pos hsl]; dsimp only; omega
      · rw [if_neg hsl]
        have ih := retryLoop_calls_le hb (a + 1) (by omega)
        dsimp only
        omega
termination_by j.maxRetries + 1 - a
decreasing_by omega

/-- With no cancellation anywhere, if attempts `a, …, i-1` fail and attempt
`i ≤ maxRetries` succeeds with `v`, the loop from `a` returns `ok v` having
made `i + 1 - a` calls, with `RetryCount = i`. -/
theorem retryLoop_first_ok (hb : ∀ k, j.canceledBefore k = false)
    (hs : ∀ k, j.canceledInSleep k = false)
    {a i : Nat} {v : String} (hai : a ≤ i) (him : i ≤ j.maxRetries)
    (hfail : ∀ k, a ≤ k → k < i → ∃ e, j.work k = Except.error e)
    (hok : j.work i = Except.ok v) :
    retryLoop j a = ⟨.ok v, i, i + 1 - a⟩ := by
  rw [retryLoop, hb a]
  simp only [Bool.false_eq_true, if_false]
  rcases Nat.eq_or_lt_of_le hai with rfl | hlt
  · rw [hok]
    have h1 : a + 1 - a = 1 := by omega
    rw [h1]
  · obtain ⟨e, he⟩ := hfail a le_rfl hlt
    rw [he]
    dsimp only
    have hm : ¬ j.maxRetries ≤ a := by omega
    rw [dif_neg hm]
    have hsl : ¬ (j.retryDelay > 0 ∧ j.canceledInSleep a = true) := by
      intro hcon
      rw [hs a] at hcon
      exact Bool.false_ne_true hcon.2
    rw [if_neg hsl]
    have ih := retryLoop_first_ok hb hs (Nat.succ_le_of_lt hlt) him
      (fun k hk1 hk2 => hfail k (by omega) hk2) hok
    rw [ih]
    dsimp only
    have h2 : i + 1 - (a + 1) + 1 = i + 1 - a := by omega
    rw [h2]
termination_by j.maxRetries + 1 - a
decreasing_by omega

/-- With no cancellation anywhere, if every attempt `a, …, maxRetries` fails,
the loop from `a ≤ maxRetries` returns the error of the last attempt,
having made `maxRetries + 1 - a` calls, with `RetryCount = maxRetries`. -/
theorem retryLoop_all_fail (hb : ∀ k, j.canceledBefore k = false)
    (hs : ∀ k, j.canceledInSleep k = false)
    {a : Nat} {elast : String} (ha : a ≤ j.maxRetries)
    (hfail : ∀ k, a ≤ k → k ≤ j.maxRetries → ∃ e, j.work k = Except.error e)
    (hlast : j.work j.maxRetries = Except.error elast) :
    retryLoop j a = ⟨.workErr elast, j.maxRetries, j.maxRetries + 1 - a⟩ := by
  rw [retryLoop, hb a]
  simp only [Bool.false_eq_true, if_false]
  rcases Nat.eq_or_lt_of_le ha with rfl | hlt
  · rw [hlast]
    dsimp only
    rw [dif_pos le_rfl]
    have h1 : j.maxRetries + 1 - j.maxRetries = 1 := by omega
    rw [h1]
  · obtain ⟨e, he⟩ := hfail a le_rfl (by omega)
    rw [he]
    dsimp only
    have hm : ¬ j.maxRetries ≤ a := by omega
    rw [dif_neg hm]
    have hsl : ¬ (j.retryDelay > 0 ∧ j.canceledInSleep a = true) := by
      intro hcon
      rw [hs a] at hcon
      exact Bool.false_ne_true hcon.2
    rw [if_neg hsl]
    have ih := retryLoop_all_fail hb hs (Nat.succ_le_of_lt hlt)
      (fun k hk1 hk2 => hfail k (by omega) hk2) hlast
    rw [ih]
    dsimp only
    have h2 : j.maxRetries + 1 - (a + 1) + 1 = j.maxRetries + 1 - a := by omega
    rw [h2]
termination_by j.maxRetries + 1 - a
decreasing_by omega

/-- If cancellation is observed at the check before attempt `c` and all
earlier attempts fail, the loop from `a ≤ c` finishes with the context
error and makes at most `c - a` further work calls. -/
theorem retryLoop_canceled (hc : j.canceledBefore c = true)
    (hcm : c ≤ j.maxRetries)
    (hfail : ∀ k, k < c → ∃ e, j.work k = Except.error e)
    {a : Nat} (ha : a ≤ c) :
    (retryLoop j a).outcome = .ctxErr ∧ (retryLoop j a).calls ≤ c - a := by
  rw [retryLoop]
  by_cases hba : j.canceledBefore a = true
  · rw [if_pos hba]
    exact ⟨rfl, Nat.zero_le _⟩
  · have hne : a ≠ c := fun h => hba (h ▸ hc)
    have hlt : a < c := lt_of_le_of_ne ha hne
    obtain ⟨e, he⟩ := hfail a hlt
    rw [if_neg hba, he]
    dsimp only
    have hm : ¬ j.maxRetries ≤ a := by omega
    rw [dif_neg hm]
    by_cases hsleep : j.retryDelay > 0 ∧ j.canceledInSleep a = true
    · rw [if_pos hsleep]
      refine ⟨rfl, ?_⟩
      dsimp only
      omega
    · rw [if_neg hsleep]
      have ih := retryLoop_canceled hc hcm hfail (show a + 1 ≤ c by omega)
      refine ⟨ih.1, ?_⟩
      have h2 := ih.2
      dsimp only
      omega
termination_by j.maxRetries + 1 - a
decreasing_by omega

end RetryLemmas

/-- C1: For a never-canceled job with `max_retries = N`, the worker retry
loop invokes the work function at most `N + 1` times; it stops at the first
successful attempt, returning its value; and when every attempt fails it
returns the last attempt's error with `RetryCount = N` after exactly `N + 1`
invocations. -/
theorem retry_bound_and_exhaustion (j : JobSpec)
    (hb : ∀ k, j.canceledBefore k = false)
    (hs : ∀ k, j.canceledInSleep k = false) :
    (runJob j).calls ≤ j.maxRetries + 1 ∧
    (∀ i v, i ≤ j.maxRetries → (∀ k, k < i → ∃ e, j.work k = Except.error e) →
      j.work i = Except.ok v →
      runJob j = ⟨.ok v, i, i + 1⟩) ∧
    (∀ elast, (∀ k, k ≤ j.maxRetries → ∃ e, j.work k = Except.error e) →
      j.work j.maxRetries = Except.error elast →
      runJob j = ⟨.workErr elast, j.maxRetries, j.maxRetries + 1⟩) := by
  refine ⟨?_, ?_, ?_⟩
  · have := retryLoop_calls_le hb 0 (Nat.zero_le _)
    simpa [runJob] using this
  · intro i v him hfail hok
    have := retryLoop_first_ok hb hs (Nat.zero_le i) him
      (fun k _ hk => hfail k hk) hok
    simpa [runJob] using this
  · intro elast hfail hlast
    have := retryLoop_all_fail hb hs (Nat.zero_le _)
      (fun k _ hk => hfail k hk) hlast
    simpa [runJob] using this

/-- Witness for `retry_bound_and_exhaustion`: a job with `max_retries = 2`
whose work always fails is invoked exactly 3 times, finishing with the last
error and `RetryCount = 2`. -/
theorem retry_bound_and_exhaustion_witness :
    (runJob ⟨2, 5, fun i => Except.error (toString i), fun _ => false,
        fun _ => false⟩) =
      ⟨.workErr "2", 2, 3⟩ := by
  have h := retry_bound_and_exhaustion
    ⟨2, 5, fun i => Except.error (toString i), fun _ => false, fun _ => false⟩
    (fun _ => rfl) (fun _ => rfl)
  exact h.2.2 "2" (fun k _ => ⟨toString k, rfl⟩) rfl

/-- C7: If the job's context is canceled by the time of the cancellation
check before attempt `c` (all earlier attempts having failed, the job still
in flight), the worker finishes the job with the context's cancellation
error and never invokes the work function at or after attempt `c`: the
retry loop checks cancellation before each attempt, and the retry sleep is
preempted by cancellation. -/
theorem cancellation_preemption (j : JobSpec) (c : Nat)
    (hc : j.canceledBefore c = true)
    (hcm : c ≤ j.maxRetries)
    (hfail : ∀ k, k < c → ∃ e, j.work k = Except.error e) :
    (runJob j).outcome = .ctxErr ∧ (runJob j).calls ≤ c := by
  have := retryLoop_canceled hc hcm hfail (Nat.zero_le c)
  simpa [runJob] using this

/-- Witness for `cancellation_preemption`: a job with `max_retries = 2`
canceled before attempt 1 finishes with the context error after at most one
work invocation. -/
theorem cancellation_preemption_witness :
    (runJob ⟨2, 0, fun _ => Except.error "boom", fun i => decide (1 ≤ i),
        fun _ => false⟩).outcome = .ctxErr ∧
    (runJob ⟨2, 0, fun _ => Except.error "boom", fun i => decide (1 ≤ i),
        fun _ => false⟩).calls ≤ 1 :=
  cancellation_preemption
    ⟨2, 0, fun _ => Except.error "boom", fun i => decide (1 ≤ i), fun _ => false⟩
    1 (by decide) (by decide) (fun k _ => ⟨"boom", rfl⟩)

/-! ## Worker result delivery

Embedding of the result-publication step of `Worker.Start`
(`internal/worker/worker.go`, the `select` after the retry loop):

```
select {
case w.results <- NewJobResult(job, resultVal, err):
case <-w.quit:
    // Pool was terminated while trying to send the result.
    return
}
```

In Go a `select` chooses among its ready cases; a send on a closed channel
counts as ready and panics when chosen.  `SendEnv` records, for one job's
publication attempt, whether the results channel is still open, whether the
quit channel is ready, and which ready case the scheduler picks when both
are.  A worker that does not publish (quit received, or panic on the closed
results channel) returns and processes no further job.
-/

/-- State of the channels at one result-publication attempt. -/
structure SendEnv where
  resultsOpen : Bool
  quitReady : Bool
  pickQuit : Bool
deriving DecidableEq, Repr

/-- What became of one result-publication attempt. -/
inductive SendOutcome where
  | published
  | droppedQuit
  | panicked
deriving DecidableEq, Repr

/-- The `select` that publishes a `JobResult` (worker.go lines 179–198). -/
def sendResult (env : SendEnv) : SendOutcome :=
  if env.quitReady && env.pickQuit then .droppedQuit
  else if env.resultsOpen then .published
  else .panicked

/-- One job as dequeued by the worker, together with the channel state at its
publication attempt. -/
structure TracedJob where
  id : Nat
  job : JobSpec
  env : SendEnv

/-- A traced job whose publication attempt succeeds. -/
def TracedJob.publishes (t : TracedJob) : Bool :=
  decide (sendResult t.env = .published)

/-- The worker loop over the jobs it dequeues: each job is executed and its
result published exactly once; when the publication attempt does not succeed
(quit received, or panic on the closed results channel) the worker returns
and no further job of the trace is processed. -/
def workerRun : List TracedJob → List (Nat × LoopResult)
  | [] => []
  | t :: rest =>
    match sendResult t.env with
    | .published => (t.id, runJob t.job) :: workerRun rest
    | .droppedQuit => []
    | .panicked => []

/-- The worker's published results come exactly from the longest initial
segment of its trace whose publication attempts all succeed. -/
theorem workerRun_eq_takeWhile (ts : List TracedJob) :
    workerRun ts =
      (ts.takeWhile TracedJob.publishes).map (fun t => (t.id, runJob t.job)) := by
  induction ts with
  | nil => rfl
  | cons t rest ih =>
    rw [workerRun, List.takeWhile_cons]
    cases hs : sendResult t.env with
    | published => simp [TracedJob.publishes, hs, ih]
    | droppedQuit => simp [TracedJob.publishes, hs]
    | panicked => simp [TracedJob.publishes, hs]

/-- C6: with distinct job ids, each job dequeued by a worker yields at most
one published result; it yields exactly one when the worker reaches its
publication and the pool has not been terminated by then (the job is in the
publishing prefix of the trace), and zero when the pool was terminated
before its result was sent (the job is outside that prefix). -/
theorem at_most_once_result_delivery (ts : List TracedJob)
    (hnodup : (ts.map TracedJob.id).Nodup) (t : TracedJob) (ht : t ∈ ts) :
    ((workerRun ts).map Prod.fst).count t.id ≤ 1 ∧
    (t ∈ ts.takeWhile TracedJob.publishes →
      ((workerRun ts).map Prod.fst).count t.id = 1) ∧
    (t ∉ ts.takeWhile TracedJob.publishes →
      ((workerRun ts).map Prod.fst).count t.id = 0) := by
  have hids : (workerRun ts).map Prod.fst =
      (ts.takeWhile TracedJob.publishes).map TracedJob.id := by
    rw [workerRun_eq_takeWhile, List.map_map]
    rfl
  have hsplit : ts.takeWhile TracedJob.publishes ++ ts.dropWhile TracedJob.publishes = ts :=
    List.takeWhile_append_dropWhile TracedJob.publishes ts
  have hcount : ((ts.takeWhile TracedJob.publishes).map TracedJob.id).count t.id +
      ((ts.dropWhile TracedJob.publishes).map TracedJob.id).count t.id ≤ 1 := by
    have h1 : (ts.map TracedJob.id).count t.id ≤ 1 :=
      List.nodup_iff_count_le_one.mp hnodup t.id
    rw [← hsplit, List.map_append, List.count_append] at h1
    exact h1
  rw [hids]
  refine ⟨by omega, ?_, ?_⟩
  · intro hmem
    have hpos : 0 < ((ts.takeWhile TracedJob.publishes).map TracedJob.id).count t.id := by
      apply List.count_pos_iff.mpr
      exact List.mem_map_of_mem TracedJob.id hmem
    omega
  · intro hnot
    have hdrop : t ∈ ts.dropWhile TracedJob.publishes := by
      rw [← hsplit] at ht
      rcases List.mem_append.mp ht with h | h
      · exact absurd h hnot
      · exact h
    have hpos : 0 < ((ts.dropWhile TracedJob.publishes).map TracedJob.id).count t.id := by
      apply List.count_pos_iff.mpr
      exact List.mem_map_of_mem TracedJob.id hdrop
    omega

/-- Witness for `at_most_once_result_delivery`: a two-job trace whose first
job publishes and whose second is cut off by termination. -/
theorem at_most_once_result_delivery_witness :
    letI j0 : JobSpec := ⟨0, 0, fun _ => Except.ok "done", fun _ => false, fun _ => false⟩
    letI t1 : TracedJob := ⟨1, j0, ⟨true, false, false⟩⟩
    letI t2 : TracedJob := ⟨2, j0, ⟨false, false, false⟩⟩
    ((workerRun [t1, t2]).map Prod.fst).count t1.id ≤ 1 ∧
    (t1 ∈ [t1, t2].takeWhile TracedJob.publishes →
      ((workerRun [t1, t2]).map Prod.fst).count t1.id = 1) ∧
    (t1 ∉ [t1, t2].takeWhile TracedJob.publishes →
      ((workerRun [t1, t2]).map Prod.fst).count t1.id = 0) :=
  at_most_once_result_delivery _ (by decide) _ (List.mem_cons_self _ _)

/-! ## Executor pool: construction and submission

Embedding of `NewPool` and `Pool.Submit` (`internal/worker/pool.go`).
-/

/-- The counters of `PoolMetrics` (internal/worker/metrics.go). -/
structure PoolMetricsRec where
  submissions : Nat
  submissionFailures : Nat
  succeeded : Nat
  failed : Nat
deriving DecidableEq, Repr

/-- `NewPoolMetrics`: all counters start at zero. -/
def PoolMetricsRec.init : PoolMetricsRec := ⟨0, 0, 0, 0⟩

/-- A job as `Pool.Submit` sees it: identity plus the `submitted_at` stamp
written by `job.SetSubmittedAt()`. -/
structure SubJob where
  id : Nat
  submittedAt : Option Nat
deriving DecidableEq, Repr

/-- The pool state `Pool.Submit` interacts with: the `closed` flag, whether
the jobs channel is still open, the enqueued jobs, and the metrics. -/
structure PoolState where
  closed : Bool
  jobsOpen : Bool
  queue : List SubJob
  metrics : PoolMetricsRec
deriving DecidableEq, Repr

/-- Result of a submission. -/
inductive SubmitResult where
  | ok
  | poolClosed
deriving DecidableEq, Repr

/-- `Pool.Submit` (pool.go lines 133–148):

```
job.SetSubmittedAt()
if p.closed.Load() { return ErrPoolClosed }
defer func() {
    if r := recover(); r != nil {
        err = ErrPoolClosed
        p.metrics.RecordFailedSubmission()
    }
}()
p.jobs <- job
p.metrics.RecordSubmission()
return nil
```

The `submitted_at` stamp happens first in every path; the `closed` flag
rejects without touching the metrics; a send on the closed jobs channel
panics and is recovered as a failed submission. -/
def Pool.submit (p : PoolState) (job : SubJob) (now : Nat) :
    PoolState × SubJob × SubmitResult :=
  let stamped := { job with submittedAt := some now }
  if p.closed then (p, stamped, .poolClosed)
  else if p.jobsOpen then
    ({ p with
        queue := p.queue ++ [stamped],
        metrics := { p.metrics with submissions := p.metrics.submissions + 1 } },
      stamped, .ok)
  else
    ({ p with
        metrics := { p.metrics with
          submissionFailures := p.metrics.submissionFailures + 1 } },
      stamped, .poolClosed)

/-- C3 counterexample: on a closed pool the submission fails with
`PoolClosed`, yet no submission failure is recorded — `Submit` returns
before reaching `RecordFailedSubmission`, so the metrics still show zero
failures. -/
theorem submit_closed_failure_not_recorded :
    (Pool.submit ⟨true, false, [], PoolMetricsRec.init⟩ ⟨7, none⟩ 5).2.2 =
      SubmitResult.poolClosed ∧
    (Pool.submit ⟨true, false, [], PoolMetricsRec.init⟩
        ⟨7, none⟩ 5).1.metrics.submissionFailures = 0 := by
  exact ⟨rfl, rfl⟩

/-- C3 (amended): `Submit` stamps `submitted_at` before the enqueue attempt
in every path; a closed pool rejects with `PoolClosed` without enqueuing and
without recording anything; a successful submit enqueues the stamped job and
records a submission; a submit whose enqueue panics on the closed jobs
channel returns `PoolClosed` and records a submission failure — the
closed-flag rejection is the one failure path that records nothing. -/
theorem submit_spec (p : PoolState) (job : SubJob) (now : Nat) :
    ((Pool.submit p job now).2.1.submittedAt = some now) ∧
    (p.closed = true →
      (Pool.submit p job now).2.2 = SubmitResult.poolClosed ∧
      (Pool.submit p job now).1 = p) ∧
    (p.closed = false → p.jobsOpen = true →
      (Pool.submit p job now).2.2 = SubmitResult.ok ∧
      (Pool.submit p job now).1.queue =
        p.queue ++ [{ job with submittedAt := some now }] ∧
      (Pool.submit p job now).1.metrics.submissions = p.metrics.submissions + 1 ∧
      (Pool.submit p job now).1.metrics.submissionFailures =
        p.metrics.submissionFailures) ∧
    (p.closed = false → p.jobsOpen = false →
      (Pool.submit p job now).2.2 = SubmitResult.poolClosed ∧
      (Pool.submit p job now).1.queue = p.queue ∧
      (Pool.submit p job now).1.metrics.submissionFailures =
        p.metrics.submissionFailures + 1) := by
  refine ⟨?_, ?_, ?_, ?_⟩
  · unfold Pool.submit
    by_cases hc : p.closed <;> by_cases hj : p.jobsOpen <;> simp [hc, hj]
  · intro hc
    unfold Pool.submit
    simp [hc]
  · intro hc hj
    unfold Pool.submit
    simp [hc, hj]
  · intro hc hj
    unfold Pool.submit
    simp [hc, hj]

/-- Witness for `submit_spec`: the three paths at concrete pools. -/
theorem submit_spec_witness :
    ((Pool.submit ⟨true, false, [], PoolMetricsRec.init⟩ ⟨1, none⟩ 3).2.2 =
        SubmitResult.poolClosed ∧
      (Pool.submit ⟨true, false, [], PoolMetricsRec.init⟩ ⟨1, none⟩ 3).1 =
        ⟨true, false, [], PoolMetricsRec.init⟩) ∧
    ((Pool.submit ⟨false, true, [], PoolMetricsRec.init⟩ ⟨1, none⟩ 3).2.2 =
        SubmitResult.ok) ∧
    ((Pool.submit ⟨false, false, [], PoolMetricsRec.init⟩
        ⟨1, none⟩ 3).1.metrics.submissionFailures = 1) := by
  refine ⟨?_, ?_, ?_⟩
  · exact (submit_spec ⟨true, false, [], PoolMetricsRec.init⟩ ⟨1, none⟩ 3).2.1 rfl
  · exact ((submit_spec ⟨false, true, [], PoolMetricsRec.init⟩ ⟨1, none⟩ 3).2.2.1
      rfl rfl).1
  · exact ((submit_spec ⟨false, false, [], PoolMetricsRec.init⟩ ⟨1, none⟩ 3).2.2.2
      rfl rfl).2.2

/-- The channel configuration produced by `NewPool`: worker count and the
capacities of the jobs, results and metrics channels (capacity 0 meaning an
unbuffered channel, as for Go's `make(chan T)`). -/
structure PoolConfig where
  maxWorkers : Int
  jobsCap : Int
  resultsCap : Int
  metricsCap : Int
deriving DecidableEq, Repr

/-- `NewPool` (pool.go lines 89–116): clamp `maxWorkers` below 1 to exactly
one worker; `buffer < 1` creates the three channels unbuffered, otherwise
all three are created with capacity `buffer`.  No argument is rejected. -/
def NewPool (maxWorkers buffer : Int) : PoolConfig :=
  let mw := if maxWorkers < 1 then 1 else maxWorkers
  if buffer < 1 then ⟨mw, 0, 0, 0⟩ else ⟨mw, buffer, buffer, buffer⟩

/-- C10: `NewPool` accepts every pair of integers: `maxWorkers < 1` silently
becomes one worker, `buffer < 1` yields unbuffered jobs/results/metrics
channels, and `buffer ≥ 1` gives all three channels capacity `buffer`. -/
theorem newPool_total_defaults (mw b : Int) :
    (NewPool mw b).maxWorkers = (if mw < 1 then 1 else mw) ∧
    (NewPool mw b).jobsCap = (if b < 1 then 0 else b) ∧
    (NewPool mw b).resultsCap = (if b < 1 then 0 else b) ∧
    (NewPool mw b).metricsCap = (if b < 1 then 0 else b) := by
  unfold NewPool
  by_cases hb : b < 1 <;> simp [hb]

/-! ## Manifest, handshake validation, and launch details

Embedding of `internal/registry/manifest.go` (`Handshake.ToConfig`,
`Manifest.ToLaunchDetails`) and the plugin format tables of the registry
(`AvailablePluginFormats`, `AvailablePluginFormatLookup`).
-/

/-- `Handshake` (manifest.go): protocol version (a Go `uint`), magic cookie
key and value. -/
structure Handshake where
  protocolVersion : Nat
  magicCookieKey : String
  magicCookieValue : String
deriving DecidableEq, Repr

/-- The validation errors of `Handshake.ToConfig`. -/
inductive ManifestErr where
  | invalidProtocolVersion
  | invalidMagicCookieKey
  | invalidMagicCookieValue
deriving DecidableEq, Repr

/-- `plugin.HandshakeConfig`, the validated handshake. -/
structure HandshakeConfig where
  protocolVersion : Nat
  magicCookieKey : String
  magicCookieValue : String
deriving DecidableEq, Repr

/-- `Handshake.ToConfig` (manifest.go lines 128–143): the protocol version
must be nonzero and both cookie fields non-empty, checked in that order. -/
def Handshake.toConfig (h : Handshake) : Except ManifestErr HandshakeConfig :=
  if h.protocolVersion = 0 then .error .invalidProtocolVersion
  else if h.magicCookieKey = "" then .error .invalidMagicCookieKey
  else if h.magicCookieValue = "" then .error .invalidMagicCookieValue
  else .ok ⟨h.protocolVersion, h.magicCookieKey, h.magicCookieValue⟩

/-- `plugin.Protocol` values used by the format tables. -/
inductive Protocol where
  | netRPC
  | grpc
deriving DecidableEq, Repr

/-- `PluginFormat` (registry): the two known wire formats. -/
inductive PluginFormat where
  | fGRPC
  | fRPC
deriving DecidableEq, Repr

/-- `AvailablePluginFormatLookup.GetPluginFormat`: a Go map lookup whose
missing-key zero value is `GRPC` (the 0 constant). -/
def getPluginFormat (format : String) : PluginFormat :=
  if format = "grpc" then .fGRPC
  else if format = "rpc" then .fRPC
  else .fGRPC

/-- `AvailablePluginFormatLookup.IsValidFormat`. -/
def isValidFormat (format : String) : Bool :=
  format == "grpc" || format == "rpc"

/-- `AvailablePluginFormats`: `GRPC ↦ {NetRPC, GRPC}`, `RPC ↦ {NetRPC}`. -/
def formatProtocols : PluginFormat → List Protocol
  | .fGRPC => [.netRPC, .grpc]
  | .fRPC => [.netRPC]

/-- `AvailablePluginFormats.GetByString`. -/
def getProtocolsByString (format : String) : List Protocol :=
  formatProtocols (getPluginFormat format)

/-- The `Manifest` structure of manifest.go. -/
structure Manifest where
  pluginName : String
  pluginType : String
  pluginFormat : String
  pluginLanguage : String
  pluginEntrypoint : String
  pluginVersion : String
  pluginDescription : String
  pluginMaintainer : String
  pluginURL : String
  handshake : Handshake
deriving DecidableEq, Repr

/-- `PluginLaunchDetails` as filled by `Manifest.ToLaunchDetails`. -/
structure PluginLaunchDetails where
  name : String
  handshakeConfig : HandshakeConfig
  cmd : String
  allowedProtocols : List Protocol
deriving DecidableEq, Repr

/-- `Manifest.ToLaunchDetails` (manifest.go lines 109–125): returns `nil`
when the handshake fails validation; `allowedProtocols` keeps its zero value
(the empty list) unless the format string is one of the known formats. -/
def Manifest.toLaunchDetails (m : Manifest) : Option PluginLaunchDetails :=
  match m.handshake.toConfig with
  | .error _ => none
  | .ok hc =>
    some { name := m.pluginName
           handshakeConfig := hc
           cmd := m.pluginEntrypoint
           allowedProtocols :=
             if isValidFormat m.pluginFormat then
               getProtocolsByString m.pluginFormat
             else [] }

/-- C4: handshake validation rejects a protocol version below 1 with
`InvalidProtocolVersion`, an empty cookie key with `InvalidMagicCookieKey`
and an empty cookie value with `InvalidMagicCookieValue` (launch details are
then `nil`); on a valid handshake, an unknown format yields an empty
allowed-transports list, `"rpc"` (framed-rpc) yields the single framed-rpc
transport, and `"grpc"` (stream-rpc) yields both transports. -/
theorem toLaunchDetails_validation (m : Manifest) :
    (m.handshake.protocolVersion < 1 →
      m.handshake.toConfig = .error .invalidProtocolVersion ∧
      m.toLaunchDetails = none) ∧
    (1 ≤ m.handshake.protocolVersion → m.handshake.magicCookieKey = "" →
      m.handshake.toConfig = .error .invalidMagicCookieKey ∧
      m.toLaunchDetails = none) ∧
    (1 ≤ m.handshake.protocolVersion → m.handshake.magicCookieKey ≠ "" →
      m.handshake.magicCookieValue = "" →
      m.handshake.toConfig = .error .invalidMagicCookieValue ∧
      m.toLaunchDetails = none) ∧
    (∀ ld, m.toLaunchDetails = some ld →
      (m.pluginFormat ≠ "grpc" → m.pluginFormat ≠ "rpc" →
        ld.allowedProtocols = []) ∧
      (m.pluginFormat = "rpc" → ld.allowedProtocols = [.netRPC]) ∧
      (m.pluginFormat = "grpc" → ld.allowedProtocols = [.netRPC, .grpc])) := by
  refine ⟨?_, ?_, ?_, ?_⟩
  · intro hv
    have h0 : m.handshake.protocolVersion = 0 := by omega
    constructor
    · unfold Handshake.toConfig
      simp [h0]
    · unfold Manifest.toLaunchDetails Handshake.toConfig
      simp [h0]
  · intro hv hk
    have h0 : ¬ m.handshake.protocolVersion = 0 := by omega
    constructor
    · unfold Handshake.toConfig
      simp [h0, hk]
    · unfold Manifest.toLaunchDetails Handshake.toConfig
      simp [h0, hk]
  · intro hv hk hval
    have h0 : ¬ m.handshake.protocolVersion = 0 := by omega
    constructor
    · unfold Handshake.toConfig
      simp [h0, hk, hval]
    · unfold Manifest.toLaunchDetails Handshake.toConfig
      simp [h0, hk, hval]
  · intro ld hld
    unfold Manifest.toLaunchDetails at hld
    cases hhc : m.handshake.toConfig with
    | error e => rw [hhc] at hld; exact absurd hld (by simp)
    | ok hc =>
      rw [hhc] at hld
      have hld2 := Option.some.inj hld
      refine ⟨?_, ?_, ?_⟩
      · intro hg hr
        rw [← hld2]
        have hvf : isValidFormat m.pluginFormat = false := by
          unfold isValidFormat
          simp [hg, hr]
        simp [hvf]
      · intro hr
        rw [← hld2]
        simp [isValidFormat, getProtocolsByString, getPluginFormat,
          formatProtocols, hr]
      · intro hg
        rw [← hld2]
        simp [isValidFormat, getProtocolsByString, getPluginFormat,
          formatProtocols, hg]

/-- A concrete manifest used to exercise `Manifest.toLaunchDetails`. -/
def mBase : Manifest :=
  ⟨"cat", "animal", "rpc", "go", "cat", "1.0.0", "", "", "", ⟨1, "K", "V"⟩⟩

/-- Witness for `toLaunchDetails_validation`: concrete manifests exercising
each validation branch and each format mapping. -/
theorem toLaunchDetails_validation_witness :
    ((Handshake.toConfig ⟨0, "K", "V"⟩ = .error .invalidProtocolVersion) ∧
      (Manifest.toLaunchDetails { mBase with handshake := ⟨0, "K", "V"⟩ } = none)) ∧
    ((Handshake.toConfig ⟨1, "", "V"⟩ = .error .invalidMagicCookieKey) ∧
      (Manifest.toLaunchDetails { mBase with handshake := ⟨1, "", "V"⟩ } = none)) ∧
    ((Handshake.toConfig ⟨1, "K", ""⟩ = .error .invalidMagicCookieValue) ∧
      (Manifest.toLaunchDetails { mBase with handshake := ⟨1, "K", ""⟩ } = none)) ∧
    (∀ ld, Manifest.toLaunchDetails { mBase with pluginFormat := "weird" } = some ld →
      ld.allowedProtocols = []) ∧
    (∀ ld, Manifest.toLaunchDetails mBase = some ld →
      ld.allowedProtocols = [.netRPC]) ∧
    (∀ ld, Manifest.toLaunchDetails { mBase with pluginFormat := "grpc" } = some ld →
      ld.allowedProtocols = [.netRPC, .grpc]) := by
  refine ⟨?_, ?_, ?_, ?_, ?_, ?_⟩
  · exact (toLaunchDetails_validation
      { mBase with handshake := ⟨0, "K", "V"⟩ }).1 (by decide)
  · exact (toLaunchDetails_validation
      { mBase with handshake := ⟨1, "", "V"⟩ }).2.1 (by decide) rfl
  · exact (toLaunchDetails_validation
      { mBase with handshake := ⟨1, "K", ""⟩ }).2.2.1 (by decide) (by decide) rfl
  · intro ld hld
    exact ((toLaunchDetails_validation
      { mBase with pluginFormat := "weird" }).2.2.2 ld hld).1 (by decide) (by decide)
  · intro ld hld
    exact ((toLaunchDetails_validation mBase).2.2.2 ld hld).2.1 rfl
  · intro ld hld
    exact ((toLaunchDetails_validation
      { mBase with pluginFormat := "grpc" }).2.2.2 ld hld).2.2 rfl

/-! ## Checksum sidecar loading

Embedding of `LoadSHA256` (`internal/checksum/sha256.go`): read the sidecar
file, split it into whitespace-separated fields, hex-decode the first field,
and wrap the decoded bytes into a `SecureConfig`.  The file content is
modelled as `Option String` (`none` = the read fails).
-/

/-- Go's `unicode.IsSpace` on the Latin-1 range: `'\t'`, `'\n'`, vertical
tab, form feed, `'\r'`, space, NEL (U+0085) and NBSP (U+00A0).  (Space
characters above the Latin-1 range do not occur in checksum files.) -/
def isGoSpace (c : Char) : Bool :=
  decide (c.toNat = 32 ∨ (9 ≤ c.toNat ∧ c.toNat ≤ 13) ∨ c.toNat = 133 ∨
    c.toNat = 160)

/-- Splitting a character list into the maximal non-space runs, accumulating
the current run in `cur` (reversed). -/
def fieldsAux : List Char → List Char → List (List Char)
  | [], cur => if cur.isEmpty then [] else [cur.reverse]
  | c :: rest, cur =>
    if isGoSpace c then
      if cur.isEmpty then fieldsAux rest []
      else cur.reverse :: fieldsAux rest []
    else fieldsAux rest (c :: cur)

/-- Go's `strings.Fields`: the non-empty maximal runs between spaces. -/
def goFields (s : String) : List String :=
  (fieldsAux s.data []).map (fun cs => String.mk cs)

/-- The value of one hex digit as decoded by Go's `encoding/hex`
(`0-9`, `a-f`, `A-F`). -/
def hexDigitVal (c : Char) : Option Nat :=
  if 48 ≤ c.toNat ∧ c.toNat ≤ 57 then some (c.toNat - 48)
  else if 97 ≤ c.toNat ∧ c.toNat ≤ 102 then some (c.toNat - 87)
  else if 65 ≤ c.toNat ∧ c.toNat ≤ 70 then some (c.toNat - 55)
  else none

/-- Hex decoding of a character list: Go's `hex.DecodeString` fails on an
odd-length input or any non-hex character. -/
def hexDecodeChars : List Char → Option (List Nat)
  | [] => some []
  | [_] => none
  | c1 :: c2 :: rest =>
    match hexDigitVal c1, hexDigitVal c2, hexDecodeChars rest with
    | some hi, some lo, some bs => some ((16 * hi + lo) :: bs)
    | _, _, _ => none

/-- Go's `hex.DecodeString`. -/
def hexDecode (s : String) : Option (List Nat) :=
  hexDecodeChars s.toList

/-- `plugin.SecureConfig` as produced by `LoadSHA256`: the decoded expected
digest (the hasher object carries no data). -/
structure SecureConfig where
  checksum : List Nat
deriving DecidableEq, Repr

/-- The error of `LoadSHA256` (`ErrInvalidChecksum`; read errors and decode
errors are joined onto it). -/
inductive ChecksumErr where
  | invalidChecksum
deriving DecidableEq, Repr

/-- `LoadSHA256` (sha256.go lines 24–64): fail when the file cannot be read,
when it has no fields, when the first field is empty (dead code: fields are
never empty) or fails hex decoding; otherwise return the decoded bytes.  The
decoded length is *not* checked. -/
def LoadSHA256 (file : Option String) : Except ChecksumErr SecureConfig :=
  match file with
  | none => .error .invalidChecksum
  | some s =>
    match goFields s with
    | [] => .error .invalidChecksum
    | hexHash :: _ =>
      if hexHash = "" then .error .invalidChecksum
      else
        match hexDecode hexHash with
        | none => .error .invalidChecksum
        | some bytes => .ok ⟨bytes⟩

/-- C5 counterexample: a sidecar whose single field decodes to a one-byte
digest is accepted — `LoadSHA256` never checks that the digest has 32
bytes, contrary to the claim. -/
theorem loadSHA256_accepts_short_digest :
    LoadSHA256 (some "ab") = .ok ⟨[171]⟩ ∧ [171].length ≠ 32 := by
  exact ⟨rfl, by decide⟩

/-- Every run produced by `fieldsAux` is non-empty. -/
theorem fieldsAux_ne_nil :
    ∀ (cs cur : List Char), ∀ l ∈ fieldsAux cs cur, l ≠ [] := by
  intro cs
  induction cs with
  | nil =>
    intro cur l hl
    unfold fieldsAux at hl
    by_cases hcur : cur.isEmpty
    · rw [if_pos hcur] at hl
      exact absurd hl (List.not_mem_nil l)
    · rw [if_neg hcur] at hl
      rcases List.mem_singleton.mp hl with rfl
      intro hrev
      exact hcur (by
        rw [List.isEmpty_iff]
        exact List.reverse_eq_nil_iff.mp hrev)
  | cons c rest ih =>
    intro cur l hl
    unfold fieldsAux at hl
    by_cases hsp : isGoSpace c
    · rw [if_pos hsp] at hl
      by_cases hcur : cur.isEmpty
      · rw [if_pos hcur] at hl
        exact ih [] l hl
      · rw [if_neg hcur] at hl
        rcases List.mem_cons.mp hl with rfl | hl2
        · intro hrev
          exact hcur (by
            rw [List.isEmpty_iff]
            exact List.reverse_eq_nil_iff.mp hrev)
        · exact ih [] l hl2
    · rw [if_neg hsp] at hl
      exact ih (c :: cur) l hl

/-- Every member of `goFields s` is a non-empty string. -/
theorem goFields_ne_empty {s : String} {t : String} (ht : t ∈ goFields s) :
    t ≠ "" := by
  unfold goFields at ht
  obtain ⟨l, hl, rfl⟩ := List.mem_map.mp ht
  have hlne := fieldsAux_ne_nil s.data [] l hl
  intro hcon
  exact hlne (congrArg String.data hcon)

/-- C5 (amended): `LoadSHA256` returns a descriptor exactly when the file
can be read, a first whitespace-separated field is present, and that field
is valid hex; the descriptor then carries the decoded bytes of the first
field, whatever their number — the 32-byte length of a SHA-256 digest is
not enforced.  Every failure is the invalid-checksum error. -/
theorem loadSHA256_spec :
    (LoadSHA256 none).isOk = false ∧
    ∀ s : String,
      ((LoadSHA256 (some s)).isOk = true ↔
        goFields s ≠ [] ∧ (hexDecode ((goFields s).headD "")).isSome = true) ∧
      (∀ sc, LoadSHA256 (some s) = .ok sc →
        hexDecode ((goFields s).headD "") = some sc.checksum) := by
  refine ⟨rfl, ?_⟩
  intro s
  cases hf : goFields s with
  | nil =>
    have herr : LoadSHA256 (some s) = .error .invalidChecksum := by
      show (match goFields s with
        | [] => (.error .invalidChecksum : Except ChecksumErr SecureConfig)
        | hexHash :: _ =>
          if hexHash = "" then .error .invalidChecksum
          else
            match hexDecode hexHash with
            | none => .error .invalidChecksum
            | some bytes => .ok ⟨bytes⟩) = .error .invalidChecksum
      rw [hf]
    constructor
    · rw [herr]
      simp [Except.isOk, Except.toBool]
    · intro sc hsc
      rw [herr] at hsc
      exact absurd hsc (by simp)
  | cons h t =>
    have hne : h ≠ "" :=
      goFields_ne_empty (by rw [hf]; exact List.mem_cons_self _ _)
    have hred : LoadSHA256 (some s) =
        (match hexDecode h with
         | none => .error .invalidChecksum
         | some bytes => .ok ⟨bytes⟩) := by
      show (match goFields s with
        | [] => (.error .invalidChecksum : Except ChecksumErr SecureConfig)
        | hexHash :: _ =>
          if hexHash = "" then .error .invalidChecksum
          else
            match hexDecode hexHash with
            | none => .error .invalidChecksum
            | some bytes => .ok ⟨bytes⟩) = _
      rw [hf]
      dsimp only
      rw [if_neg hne]
    simp only [List.headD_cons]
    constructor
    · rw [hred]
      cases hd : hexDecode h with
      | none => simp [Except.isOk, Except.toBool]
      | some bytes => simp [Except.isOk, Except.toBool]
    · intro sc hsc
      rw [hred] at hsc
      cases hd : hexDecode h with
      | none => rw [hd] at hsc; exact absurd hsc (by simp)
      | some bytes =>
        rw [hd] at hsc
        have hb : SecureConfig.mk bytes = sc := Except.ok.inj hsc
        rw [← hb]

/-! ## Registry loader

Embedding of `PluginLoader.Load` (`internal/registry/loader.go`) together
with `LoadManifest` / `getMD5Hash` (`internal/registry/manifest.go`).  The
filesystem walk is modelled by the list of package subdirectories of the
plugins root, each carrying the bytes of its `manifest.yaml` (`none` = the
file cannot be read).  The MD5 hash of the library and the YAML parser are
external collaborators and enter the model as function parameters computed
on the raw bytes, exactly where `Load` calls them.
-/

/-- The per-package errors of `LoadManifest`. -/
inductive LoadErr where
  | readError
  | yamlError
deriving DecidableEq, Repr

/-- `ManifestEntry`: the (nil-able) parsed manifest and its content hash. -/
structure ManifestEntryR where
  entry : Option Manifest
  hash : String
deriving DecidableEq, Repr

/-- A package directory under the plugins root: its name and the content of
its `manifest.yaml`. -/
structure PkgFS where
  dir : String
  manifestFile : Option (List Nat)
deriving DecidableEq, Repr

/-- `LoadManifest` (manifest.go): read the file, hash the raw bytes
*before* parsing, then parse; on a read failure return `(nil, "", err)`, on
a parse failure `(nil, hash, err)`, on success `(manifest, hash, nil)`. -/
def LoadManifestR (hashFn : List Nat → String) (parse : List Nat → Option Manifest)
    (file : Option (List Nat)) : Option Manifest × String × Option LoadErr :=
  match file with
  | none => (none, "", some .readError)
  | some bytes =>
    let h := hashFn bytes
    match parse bytes with
    | none => (none, h, some .yamlError)
    | some m => (some m, h, none)

/-- Insert-or-replace on a map from directory keys, as a Go map write. -/
def mapAdd {α : Type} : List (String × α) → String → α → List (String × α)
  | [], k, v => [(k, v)]
  | (k0, v0) :: rest, k, v =>
    if k0 = k then (k, v) :: rest else (k0, v0) :: mapAdd rest k v

/-- Lookup in a map from directory keys. -/
def mapFind {α : Type} : List (String × α) → String → Option α
  | [], _ => none
  | (k0, v0) :: rest, k => if k0 = k then some v0 else mapFind rest k

/-- The catalog of `Manifests.entries`. -/
abbrev CatalogR := List (String × ManifestEntryR)

/-- The `LoaderErrors` map. -/
abbrev LoaderErrorsR := List (String × LoadErr)

/-- The absolute package path used as map key:
`filepath.Abs(filepath.Join(pl.path, path))`. -/
def pkgKey (root : String) (p : PkgFS) : String := root ++ "/" ++ p.dir

/-- The `ManifestEntry` the loader constructs for a package:
`NewManifestEntry(manifest, hash)` with the values `LoadManifest` returned. -/
def pkgEntry (hashFn : List Nat → String) (parse : List Nat → Option Manifest)
    (p : PkgFS) : ManifestEntryR :=
  ⟨(LoadManifestR hashFn parse p.manifestFile).1,
    (LoadManifestR hashFn parse p.manifestFile).2.1⟩

/-- The per-package error, if any. -/
def pkgErr (hashFn : List Nat → String) (parse : List Nat → Option Manifest)
    (p : PkgFS) : Option LoadErr :=
  (LoadManifestR hashFn parse p.manifestFile).2.2

/-- The body of the `WalkDir` callback of `PluginLoader.Load` for one package
directory (loader.go lines 110–131): on failure the error is recorded in
`LoaderErrors` *and* the package is still added to the manifests map (with a
nil manifest, “for observability”, twice in fact); on success the entry is
added once. -/
def loadStep (hashFn : List Nat → String) (parse : List Nat → Option Manifest)
    (root : String) (acc : CatalogR × LoaderErrorsR) (p : PkgFS) :
    CatalogR × LoaderErrorsR :=
  let key := pkgKey root p
  let entry := pkgEntry hashFn parse p
  match pkgErr hashFn parse p with
  | some e => (mapAdd (mapAdd acc.1 key entry) key entry, mapAdd acc.2 key e)
  | none => (mapAdd acc.1 key entry, acc.2)

/-- `PluginLoader.Load`: walk the packages, starting from the loader's
persisted manifests map (`pl.manifests`, reused across loads) and a fresh
`LoaderErrors` map. -/
def loadPlugins (hashFn : List Nat → String) (parse : List Nat → Option Manifest)
    (root : String) (pkgs : List PkgFS) (init : CatalogR) :
    CatalogR × LoaderErrorsR :=
  pkgs.foldl (loadStep hashFn parse root) (init, [])

theorem mapFind_mapAdd_self {α : Type} (c : List (String × α)) (k : String) (v : α) :
    mapFind (mapAdd c k v) k = some v := by
  induction c with
  | nil => simp [mapAdd, mapFind]
  | cons kv rest ih =>
    obtain ⟨k0, v0⟩ := kv
    by_cases hk : k0 = k
    · simp [mapAdd, hk, mapFind]
    · simp [mapAdd, hk, mapFind, ih]

theorem mapFind_mapAdd_ne {α : Type} (c : List (String × α)) {k k2 : String}
    (hne : k ≠ k2) (v : α) :
    mapFind (mapAdd c k v) k2 = mapFind c k2 := by
  induction c with
  | nil => simp [mapAdd, mapFind, hne]
  | cons kv rest ih =>
    obtain ⟨k0, v0⟩ := kv
    by_cases hk : k0 = k
    · subst hk
      simp [mapAdd, mapFind, hne]
    · simp [mapAdd, hk, mapFind, ih]

/-- A fold over packages whose keys avoid `k` leaves both lookups at `k`
unchanged. -/
theorem loadPlugins_fold_untouched (hashFn : List Nat → String)
    (parse : List Nat → Option Manifest) (root : String) (pkgs : List PkgFS)
    {k : String} (hk : k ∉ pkgs.map (pkgKey root))
    (acc : CatalogR × LoaderErrorsR) :
    mapFind (pkgs.foldl (loadStep hashFn parse root) acc).1 k = mapFind acc.1 k ∧
    mapFind (pkgs.foldl (loadStep hashFn parse root) acc).2 k = mapFind acc.2 k := by
  induction pkgs generalizing acc with
  | nil => exact ⟨rfl, rfl⟩
  | cons p rest ih =>
    have hkp : pkgKey root p ≠ k := by
      intro h
      exact hk (by rw [List.map_cons]; exact h ▸ List.mem_cons_self _ _)
    have hkr : k ∉ rest.map (pkgKey root) := by
      intro h
      exact hk (by rw [List.map_cons]; exact List.mem_cons_of_mem _ h)
    rw [List.foldl_cons]
    have ihs := ih hkr (loadStep hashFn parse root acc p)
    refine ⟨?_, ?_⟩
    · rw [ihs.1]
      unfold loadStep
      cases hpe : pkgErr hashFn parse p with
      | some e => simp [mapFind_mapAdd_ne _ hkp]
      | none => simp [mapFind_mapAdd_ne _ hkp]
    · rw [ihs.2]
      unfold loadStep
      cases hpe : pkgErr hashFn parse p with
      | some e => simp [mapFind_mapAdd_ne _ hkp]
      | none => simp

/-- With distinct package keys, after a load the catalog maps each package's
key to the entry built from its `LoadManifest` outcome, and the errors map
carries exactly its per-package error (provided the accumulator's error map
does not yet bind that key). -/
theorem loadPlugins_fold_lookup (hashFn : List Nat → String)
    (parse : List Nat → Option Manifest) (root : String) (pkgs : List PkgFS)
    (hnd : (pkgs.map (pkgKey root)).Nodup) {p : PkgFS} (hp : p ∈ pkgs)
    (acc : CatalogR × LoaderErrorsR)
    (hacc : mapFind acc.2 (pkgKey root p) = none) :
    mapFind (pkgs.foldl (loadStep hashFn parse root) acc).1 (pkgKey root p) =
      some (pkgEntry hashFn parse p) ∧
    mapFind (pkgs.foldl (loadStep hashFn parse root) acc).2 (pkgKey root p) =
      pkgErr hashFn parse p := by
  induction pkgs generalizing acc with
  | nil => exact absurd hp (List.not_mem_nil p)
  | cons q rest ih =>
    rw [List.map_cons, List.nodup_cons] at hnd
    rw [List.foldl_cons]
    rcases List.mem_cons.mp hp with rfl | hpr
    · have hkr : pkgKey root p ∉ rest.map (pkgKey root) := hnd.1
      have hu := loadPlugins_fold_untouched hashFn parse root rest hkr
        (loadStep hashFn parse root acc p)
      refine ⟨?_, ?_⟩
      · rw [hu.1]
        unfold loadStep
        cases hpe : pkgErr hashFn parse p with
        | some e => simp [mapFind_mapAdd_self]
        | none => simp [mapFind_mapAdd_self]
      · rw [hu.2]
        unfold loadStep
        cases hpe : pkgErr hashFn parse p with
        | some e => simp [hpe, mapFind_mapAdd_self]
        | none => simp [hpe, hacc]
    · have hkq : pkgKey root q ≠ pkgKey root p := by
        intro h
        exact hnd.1 (h ▸ List.mem_map_of_mem (pkgKey root) hpr)
      refine ih hnd.2 hpr (loadStep hashFn parse root acc q) ?_
      unfold loadStep
      cases hpe : pkgErr hashFn parse q with
      | some e => simp [mapFind_mapAdd_ne _ hkq, hacc]
      | none => simp [hacc]

/-- C2 counterexample: a root with a well-formed package `good` and a
malformed package `broken` yields `LoaderErrors` binding `P/broken` to the
parse error, but — contrary to the claim — the failed package *is* also
stored in the catalog, as an entry with a nil manifest. -/
theorem broken_package_stored_in_catalog :
    mapFind (loadPlugins (fun b => toString b.length)
        (fun b => if b = [1] then some mBase else none)
        "P" [⟨"good", some [1]⟩, ⟨"broken", some [2]⟩] []).1 "P/broken" =
      some ⟨none, "1"⟩ ∧
    mapFind (loadPlugins (fun b => toString b.length)
        (fun b => if b = [1] then some mBase else none)
        "P" [⟨"good", some [1]⟩, ⟨"broken", some [2]⟩] []).2 "P/broken" =
      some .yamlError ∧
    mapFind (loadPlugins (fun b => toString b.length)
        (fun b => if b = [1] then some mBase else none)
        "P" [⟨"good", some [1]⟩, ⟨"broken", some [2]⟩] []).1 "P/good" =
      some ⟨some mBase, "1"⟩ := by
  refine ⟨?_, ?_, ?_⟩ <;> rfl

/-- C2 (amended): loading records each package that parses successfully as a
proper catalog entry with no error, and each failing package both as an
entry in `LoaderErrors` keyed by its absolute path *and* as a catalog entry
with a nil manifest (kept for observability of misinstalled plugins). -/
theorem load_records_success_and_failure (hashFn : List Nat → String)
    (parse : List Nat → Option Manifest) (root : String) (pkgs : List PkgFS)
    (hnd : (pkgs.map (pkgKey root)).Nodup) (p : PkgFS) (hp : p ∈ pkgs) :
    (∀ m h, LoadManifestR hashFn parse p.manifestFile = (some m, h, none) →
      mapFind (loadPlugins hashFn parse root pkgs []).1 (pkgKey root p) =
        some ⟨some m, h⟩ ∧
      mapFind (loadPlugins hashFn parse root pkgs []).2 (pkgKey root p) = none) ∧
    (∀ mo h e, LoadManifestR hashFn parse p.manifestFile = (mo, h, some e) →
      mapFind (loadPlugins hashFn parse root pkgs []).1 (pkgKey root p) =
        some ⟨mo, h⟩ ∧
      mapFind (loadPlugins hashFn parse root pkgs []).2 (pkgKey root p) =
        some e) := by
  have hl := loadPlugins_fold_lookup hashFn parse root pkgs hnd hp
    (([], []) : CatalogR × LoaderErrorsR) rfl
  constructor
  · intro m h hsucc
    have he : pkgEntry hashFn parse p = ⟨some m, h⟩ := by
      unfold pkgEntry
      rw [hsucc]
    have hne : pkgErr hashFn parse p = none := by
      unfold pkgErr
      rw [hsucc]
    exact ⟨hl.1.trans (by rw [he]), hl.2.trans hne⟩
  · intro mo h e hmo
    have he : pkgEntry hashFn parse p = ⟨mo, h⟩ := by
      unfold pkgEntry
      rw [hmo]
    have herr : pkgErr hashFn parse p = some e := by
      unfold pkgErr
      rw [hmo]
    exact ⟨hl.1.trans (by rw [he]), hl.2.trans herr⟩

/-- Witness for `load_records_success_and_failure` at the two-package root of
the counterexample. -/
theorem load_records_success_and_failure_witness :
    (∀ m h, LoadManifestR (fun b => toString b.length)
        (fun b => if b = [1] then some mBase else none) (some [2]) =
        (some m, h, none) →
      mapFind (loadPlugins (fun b => toString b.length)
        (fun b => if b = [1] then some mBase else none)
        "P" [⟨"good", some [1]⟩, ⟨"broken", some [2]⟩] []).1 "P/broken" =
        some ⟨some m, h⟩ ∧
      mapFind (loadPlugins (fun b => toString b.length)
        (fun b => if b = [1] then some mBase else none)
        "P" [⟨"good", some [1]⟩, ⟨"broken", some [2]⟩] []).2 "P/broken" = none) ∧
    (∀ mo h e, LoadManifestR (fun b => toString b.length)
        (fun b => if b = [1] then some mBase else none) (some [2]) =
        (mo, h, some e) →
      mapFind (loadPlugins (fun b => toString b.length)
        (fun b => if b = [1] then some mBase else none)
        "P" [⟨"good", some [1]⟩, ⟨"broken", some [2]⟩] []).1 "P/broken" =
        some ⟨mo, h⟩ ∧
      mapFind (loadPlugins (fun b => toString b.length)
        (fun b => if b = [1] then some mBase else none)
        "P" [⟨"good", some [1]⟩, ⟨"broken", some [2]⟩] []).2 "P/broken" =
        some e) :=
  load_records_success_and_failure (fun b => toString b.length)
    (fun b => if b = [1] then some mBase else none)
    "P" [⟨"good", some [1]⟩, ⟨"broken", some [2]⟩]
    (by decide) ⟨"broken", some [2]⟩ (by decide)

/-- C8: with no filesystem mutation, two successive `Load` calls on the same
loader (the second starting from the catalog the first produced) yield
catalogs with identical lookups — in particular equal key sets and per-key
equal `manifest_hash` — and the hash stored for a readable manifest is the
hash function applied to the raw bytes, computed before parsing, whatever
the parse outcome. -/
theorem catalog_load_idempotent (hashFn : List Nat → String)
    (parse : List Nat → Option Manifest) (root : String) (pkgs : List PkgFS)
    (hnd : (pkgs.map (pkgKey root)).Nodup) :
    (∀ k, mapFind (loadPlugins hashFn parse root pkgs
          (loadPlugins hashFn parse root pkgs []).1).1 k =
        mapFind (loadPlugins hashFn parse root pkgs []).1 k) ∧
    (∀ bytes, (LoadManifestR hashFn parse (some bytes)).2.1 = hashFn bytes) := by
  constructor
  · intro k
    by_cases hk : k ∈ pkgs.map (pkgKey root)
    · obtain ⟨p, hp, rfl⟩ := List.mem_map.mp hk
      have h1 := loadPlugins_fold_lookup hashFn parse root pkgs hnd hp
        (([], []) : CatalogR × LoaderErrorsR) rfl
      have h2 := loadPlugins_fold_lookup hashFn parse root pkgs hnd hp
        (((loadPlugins hashFn parse root pkgs []).1, []) :
          CatalogR × LoaderErrorsR) rfl
      exact h2.1.trans h1.1.symm
    · have h2 := loadPlugins_fold_untouched hashFn parse root pkgs hk
        (((loadPlugins hashFn parse root pkgs []).1, []) :
          CatalogR × LoaderErrorsR)
      exact h2.1
  · intro bytes
    unfold LoadManifestR
    cases hp : parse bytes <;> simp [hp]

/-- Witness for `catalog_load_idempotent` at the two-package root. -/
theorem catalog_load_idempotent_witness :
    (∀ k, mapFind (loadPlugins (fun b => toString b.length)
          (fun b => if b = [1] then some mBase else none)
          "P" [⟨"good", some [1]⟩, ⟨"broken", some [2]⟩]
          (loadPlugins (fun b => toString b.length)
            (fun b => if b = [1] then some mBase else none)
            "P" [⟨"good", some [1]⟩, ⟨"broken", some [2]⟩] []).1).1 k =
        mapFind (loadPlugins (fun b => toString b.length)
          (fun b => if b = [1] then some mBase else none)
          "P" [⟨"good", some [1]⟩, ⟨"broken", some [2]⟩] []).1 k) ∧
    (∀ bytes, (LoadManifestR (fun b => toString b.length)
        (fun b => if b = [1] then some mBase else none) (some bytes)).2.1 =
      toString bytes.length) :=
  catalog_load_idempotent (fun b => toString b.length)
    (fun b => if b = [1] then some mBase else none)
    "P" [⟨"good", some [1]⟩, ⟨"broken", some [2]⟩] (by decide)

/-! ## Capability schema and evaluator

The schema types are embedded from the `capability` package.  The evaluator
(`is_allowed`) does not exist in the source — only the declarative types do
— so it is modelled from the spec (§4.5); the external matchers (path
canonicalization with symlink resolution, CIDR inclusion, glob matching of
arguments) enter as function parameters.
-/

/-- `FileSystemCapability` (capability package): permissions for a path. -/
structure FileSystemCapability where
  path : String
  permissions : List String
  recursive : Bool
deriving DecidableEq, Repr

/-- `EgressRule` (capability package). -/
structure EgressRule where
  protocol : String
  hosts : List String
  ports : List Int
deriving DecidableEq, Repr

/-- `IngressRule` (capability package). -/
structure IngressRule where
  protocol : String
  ports : List Int
  allowedOrigins : List String
deriving DecidableEq, Repr

/-- `NetworkCapability` (capability package). -/
structure NetworkCapability where
  egress : List EgressRule
  ingress : List IngressRule
deriving DecidableEq, Repr

/-- `ExecRule` (capability package). -/
structure ExecRule where
  command : String
  args : List String
deriving DecidableEq, Repr

/-- `ProcessCapability` (capability package): the pointer/slice fields tell
which kind of rule it is. -/
structure ProcessCapability where
  exec : Option ExecRule
  kill : List String
  list : List String
  signal : List String
deriving DecidableEq, Repr

/-- `Capabilities` (capability package): all requested permissions; a `nil`
network section means no network grants. -/
structure Capabilities where
  filesystem : List FileSystemCapability
  network : Option NetworkCapability
  process : List ProcessCapability
deriving DecidableEq, Repr

/-- The empty `Capabilities` value: no filesystem grants, no network
section, no process grants. -/
def Capabilities.empty : Capabilities := ⟨[], none, []⟩

/-- Modelled from the spec: the filesystem query of the capability
evaluator, absent from the source (only the schema types exist there).  A
path `p` with operation `op` is allowed iff some grant exists whose
canonicalized path is a prefix of the canonicalized `p`, whose permissions
contain `op`, and, when `p` is strictly deeper than the grant's path, whose
`recursive` flag is set.  The canonicalizer (symlinks resolved, split into
components) is an external collaborator passed as `canon`. -/
def isAllowedFs (canon : String → List String) (caps : Capabilities)
    (p : String) (op : String) : Bool :=
  caps.filesystem.any fun g =>
    (canon g.path).isPrefixOf (canon p) && g.permissions.contains op &&
      (canon g.path == canon p || g.recursive)

/-- Modelled from the spec: network egress, absent from the source —
`(proto, host, port)` is allowed iff some egress rule matches the protocol,
contains the host verbatim and contains the port. -/
def isAllowedEgress (caps : Capabilities) (proto host : String)
    (port : Int) : Bool :=
  match caps.network with
  | none => false
  | some net =>
    net.egress.any fun r =>
      r.protocol == proto && r.hosts.contains host && r.ports.contains port

/-- Modelled from the spec: network ingress, absent from the source —
`(proto, port, origin)` is allowed iff some ingress rule matches protocol
and port and one of its allowed origins matches the origin (exact host or
CIDR inclusion, decided by the external matcher `originMatch`). -/
def isAllowedIngress (originMatch : String → String → Bool)
    (caps : Capabilities) (proto : String) (port : Int)
    (origin : String) : Bool :=
  match caps.network with
  | none => false
  | some net =>
    net.ingress.any fun r =>
      r.protocol == proto && r.ports.contains port &&
        r.allowedOrigins.any fun o => originMatch o origin

/-- Modelled from the spec: the `exec` process query, absent from the source
— allowed iff some grant carries an exec rule whose command matches exactly
and whose argument patterns match by the external glob matcher. -/
def isAllowedExec (globMatch : List String → List String → Bool)
    (caps : Capabilities) (cmd : String) (args : List String) : Bool :=
  caps.process.any fun pc =>
    match pc.exec with
    | none => false
    | some er => er.command == cmd && globMatch er.args args

/-- Modelled from the spec: the `kill` process query, absent from the
source — allowed iff the scope is granted. -/
def isAllowedKill (caps : Capabilities) (scope : String) : Bool :=
  caps.process.any fun pc => pc.kill.contains scope

/-- Modelled from the spec: the process-list query, absent from the source
— allowed iff the scope is granted. -/
def isAllowedProcList (caps : Capabilities) (scope : String) : Bool :=
  caps.process.any fun pc => pc.list.contains scope

/-- Modelled from the spec: the `signal` process query, absent from the
source — allowed iff the scope is granted. -/
def isAllowedSignal (caps : Capabilities) (scope : String) : Bool :=
  caps.process.any fun pc => pc.signal.contains scope

/-- Modelled from the spec: any evaluator error also results in deny. -/
def decideAllowed {ε : Type} (r : Except ε Bool) : Bool :=
  match r with
  | .error _ => false
  | .ok b => b

/-- C9: with an empty `Capabilities` — no filesystem grants, no network
section, no process grants — every `is_allowed` query (filesystem, network
egress, network ingress, and every process query) returns deny, and an
evaluator error also results in deny. -/
theorem capability_default_deny :
    (∀ canon p op, isAllowedFs canon Capabilities.empty p op = false) ∧
    (∀ proto host port,
      isAllowedEgress Capabilities.empty proto host port = false) ∧
    (∀ om proto port origin,
      isAllowedIngress om Capabilities.empty proto port origin = false) ∧
    (∀ gm cmd args, isAllowedExec gm Capabilities.empty cmd args = false) ∧
    (∀ scope, isAllowedKill Capabilities.empty scope = false ∧
      isAllowedProcList Capabilities.empty scope = false ∧
      isAllowedSignal Capabilities.empty scope = false) ∧
    (∀ e : String, decideAllowed (Except.error e : Except String Bool) = false) := by
  refine ⟨?_, ?_, ?_, ?_, ?_, ?_⟩
  · intro canon p op
    rfl
  · intro proto host port
    rfl
  · intro om proto port origin
    rfl
  · intro gm cmd args
    rfl
  · intro scope
    exact ⟨rfl, rfl, rfl⟩
  · intro e
    rfl

end PlugsConc
